import Mathlib

/-!
Verification development for the live audio session manager of the
Nubela-Tasks repository (src/services/geminiService.ts), together with the
audio codec utilities it consumes.

The embedding models the mutable fields of `LiveSessionManager`
(`sessionPromise`, `nextStartTime`, `sources`, the microphone pipeline
nodes and the two audio contexts) as a record `LiveState`, and the
methods `handleServerMessage`, `stopAllSources` and `disconnect` as pure
state transformers that additionally emit a trace of observable events
(volume callbacks, playback scheduling, source stops, tool-handler
invocations, tool responses).  Time values (audio-clock readings and
buffer durations) are rationals.  The external environment is passed in
explicitly: `decodeDur` gives the duration of a successfully decoded
audio payload (`none` models a DecodeError thrown by
`base64ToBytes`/`decodeAudioData`), `handler` gives the outcome of the
caller-supplied `onToolCall` callback (a returned value or a thrown
error message).

In the source, `handleServerMessage` is an `async` method whose body has
no try/catch: a decode failure aborts the rest of that invocation (the
interruption and tool-call sections of the same message do not run) and
the rejection escapes, but the `onmessage` callback fires a fresh
invocation per server event, so later messages are still processed.  The
embedding returns a `decodeFailed` flag to record an escaped rejection
and keeps the partial state updates that precede the failing `await`.
-/

namespace NubelaTasks

/-- Outcome of the caller-supplied `onToolCall` callback for one call:
either the promise resolves with a value or it rejects with an error
message. -/
inductive HandlerOutcome where
  | ok (v : String)
  | thrown (msg : String)
deriving DecidableEq, Repr

/-- The payload placed in the ToolResponse: either the value the handler
returned, or the substituted `\x7berror: message\x7d` object built in the
catch block. -/
inductive ToolResult where
  | value (v : String)
  | error (msg : String)
deriving DecidableEq, Repr

/-- One entry of `message.toolCall.functionCalls`: id, name, arguments
(arguments are opaque to the session manager and modelled as a string). -/
structure ToolCallMsg where
  id : String
  name : String
  args : String
deriving DecidableEq, Repr

/-- The record passed to `session.sendToolResponse` (its
`functionResponses` field). -/
structure ToolResponse where
  id : String
  name : String
  response : ToolResult
deriving DecidableEq, Repr

/-- Observable events emitted while handling server messages:
`onVolumeLevel` callbacks, `source.start` scheduling, `source.stop`,
invocation of the `onToolCall` callback, and `sendToolResponse`. -/
inductive Event where
  | volumeLevel (v : ℚ)
  | scheduled (srcId : ℕ) (start dur : ℚ)
  | stopped (srcId : ℕ)
  | invokeHandler (id name : String)
  | sentResponse (r : ToolResponse)
deriving DecidableEq, Repr

/-- A `LiveServerMessage` as far as `handleServerMessage` inspects it:
the optional base64 audio payload
(`serverContent?.modelTurn?.parts?[0]?.inlineData?.data`), the
`serverContent?.interrupted` flag, and the optional `toolCall` object
with its list of function calls. -/
structure ServerMessage where
  audioData : Option String
  interrupted : Bool
  toolCalls : Option (List ToolCallMsg)
deriving DecidableEq, Repr

/-- The mutable fields of `LiveSessionManager`, plus the observable
status of the Web Audio nodes it owns.  `sources` keeps the active
`AudioBufferSourceNode`s by numeric id in insertion order;
`nextSourceId` is a fresh-name supply for them.  The `has…` flags record
whether the corresponding nullable field is non-null; the remaining
flags record the node's state (`disconnect()` in the source never nulls
the fields, it only disconnects/closes the nodes). -/
structure LiveState where
  sessionPromise : Bool
  nextStartTime : ℚ
  sources : List ℕ
  nextSourceId : ℕ
  hasProcessor : Bool
  processorConnected : Bool
  processorHasHandler : Bool
  hasInputSource : Bool
  inputSourceConnected : Bool
  hasInputCtx : Bool
  inputCtxClosed : Bool
  hasOutputCtx : Bool
  outputCtxClosed : Bool
deriving DecidableEq, Repr

/-- State right after `new LiveSessionManager(callbacks)`: no session
promise, `nextStartTime = 0`, empty source set, all nullable fields
null. -/
def initialState : LiveState :=
  { sessionPromise := false
    nextStartTime := 0
    sources := []
    nextSourceId := 0
    hasProcessor := false
    processorConnected := false
    processorHasHandler := false
    hasInputSource := false
    inputSourceConnected := false
    hasInputCtx := false
    inputCtxClosed := false
    hasOutputCtx := false
    outputCtxClosed := false }

/-- The result computed by the try/catch around `onToolCall`: the
handler's value on success, `\x7berror: err.message\x7d` on throw. -/
def resultOfHandler (handler : String → String → HandlerOutcome)
    (fc : ToolCallMsg) : ToolResult :=
  match handler fc.name fc.args with
  | HandlerOutcome.ok v => ToolResult.value v
  | HandlerOutcome.thrown msg => ToolResult.error msg

/-- The ToolResponse built for one function call: same id, same name,
payload from `resultOfHandler`. -/
def expectedResponse (handler : String → String → HandlerOutcome)
    (fc : ToolCallMsg) : ToolResponse :=
  ⟨fc.id, fc.name, resultOfHandler handler fc⟩

/-- The audio section of `handleServerMessage` (geminiService.ts lines
243-258).  Guard: the payload string is present and truthy (the empty
string is falsy in JavaScript) and `outputAudioContext` is non-null.
Then, in source order: `onVolumeLevel(0.5)`;
`nextStartTime = max(currentTime, nextStartTime)`; `await
decodeAudioData(...)` — on DecodeError the invocation aborts here with
the bumped cursor kept; otherwise `source.start(nextStartTime)`,
`nextStartTime += duration`, `sources.add(source)`.  Returns the new
state, the emitted events, and whether decoding threw. -/
def handleAudio (decodeDur : String → Option ℚ) (clock : ℚ)
    (s : LiveState) (m : ServerMessage) : LiveState × List Event × Bool :=
  match m.audioData with
  | none => (s, [], false)
  | some d =>
    if d = "" then (s, [], false)
    else if s.hasOutputCtx = false then (s, [], false)
    else
      let s1 : LiveState := { s with nextStartTime := max clock s.nextStartTime }
      match decodeDur d with
      | none => (s1, [ Event.volumeLevel (1/2) ], true)
      | some dur =>
        let sid := s1.nextSourceId
        let start := s1.nextStartTime
        let s2 : LiveState :=
          { s1 with nextStartTime := start + dur
                    sources := s1.sources ++ [ sid ]
                    nextSourceId := sid + 1 }
        (s2, [ Event.volumeLevel (1/2), Event.scheduled sid start dur ], false)

/-- `stopAllSources` (geminiService.ts lines 287-293): stop every active
source, clear the set, reset `nextStartTime` to 0. -/
def stopAllSources (s : LiveState) : LiveState × List Event :=
  ({ s with sources := [], nextStartTime := 0 }, s.sources.map Event.stopped)

/-- The tool-call section of `handleServerMessage` (lines 264-284): for
each function call in order, invoke the handler (awaited before the loop
continues), build the result via try/catch, and — only if
`sessionPromise` is non-null — send the ToolResponse. -/
def handleToolCalls (handler : String → String → HandlerOutcome)
    (s : LiveState) : List ToolCallMsg → List Event
  | [] => []
  | fc :: rest =>
    Event.invokeHandler fc.id fc.name ::
      ((if s.sessionPromise then [ Event.sentResponse (expectedResponse handler fc) ] else []) ++
        handleToolCalls handler s rest)

/-- The interruption section of `handleServerMessage` (lines 260-262):
call `stopAllSources` when `serverContent?.interrupted` is truthy. -/
def interruptStep (s : LiveState) (m : ServerMessage) : LiveState × List Event :=
  if m.interrupted then stopAllSources s else (s, [])

/-- The tool-call section of `handleServerMessage` (lines 264-284),
dispatching on the presence of `message.toolCall`. -/
def toolStep (handler : String → String → HandlerOutcome)
    (s : LiveState) (m : ServerMessage) : List Event :=
  match m.toolCalls with
  | none => []
  | some calls => handleToolCalls handler s calls

/-- `handleServerMessage` (geminiService.ts lines 242-285): the audio
section runs first, the interruption check second, the tool-call loop
last.  A DecodeError in the audio section aborts the invocation (the
later sections are skipped and the flag is set); the state and events
produced before the throw are kept. -/
def handleServerMessage (decodeDur : String → Option ℚ)
    (handler : String → String → HandlerOutcome) (clock : ℚ)
    (s : LiveState) (m : ServerMessage) : LiveState × List Event × Bool :=
  match handleAudio decodeDur clock s m with
  | (s1, ev1, true) => (s1, ev1, true)
  | (s1, ev1, false) =>
    ((interruptStep s1 m).1,
      ev1 ++ (interruptStep s1 m).2 ++ toolStep handler (interruptStep s1 m).1 m,
      false)

/-- Processing a sequence of server events in arrival order, each with
the audio-clock reading at the time it is handled.  The `onmessage`
callback fires `handleServerMessage` once per event; an escaped
DecodeError rejection does not stop later events from being handled. -/
def processMessages (decodeDur : String → Option ℚ)
    (handler : String → String → HandlerOutcome) (s : LiveState) :
    List (ℚ × ServerMessage) → LiveState × List Event
  | [] => (s, [])
  | (c, m) :: rest =>
    let r1 := handleServerMessage decodeDur handler c s m
    let r2 := processMessages decodeDur handler r1.1 rest
    (r2.1, r1.2.1 ++ r2.2)

/-- `disconnect` (geminiService.ts lines 295-309): if the processor is
non-null, disconnect it and null its `onaudioprocess` handler; if the
input source is non-null, disconnect it; close each non-null audio
context.  None of the fields themselves are nulled, and `sessionPromise`
is untouched. -/
def disconnect (s : LiveState) : LiveState :=
  let s1 := if s.hasProcessor then
      { s with processorConnected := false, processorHasHandler := false } else s
  let s2 := if s1.hasInputSource then { s1 with inputSourceConnected := false } else s1
  let s3 := if s2.hasInputCtx then { s2 with inputCtxClosed := true } else s2
  if s3.hasOutputCtx then { s3 with outputCtxClosed := true } else s3

/-- The ToolResponses actually sent during a trace, in send order. -/
def sentResponses (evs : List Event) : List ToolResponse :=
  evs.filterMap fun e =>
    match e with
    | Event.sentResponse r => some r
    | _ => none

/-- The handler invocations of a trace, in invocation order (id, name). -/
def invokedCalls (evs : List Event) : List (String × String) :=
  evs.filterMap fun e =>
    match e with
    | Event.invokeHandler i n => some (i, n)
    | _ => none

/-- The playback scheduling events of a trace, in order, as
(startTime, duration) pairs. -/
def scheduledIntervals (evs : List Event) : List (ℚ × ℚ) :=
  evs.filterMap fun e =>
    match e with
    | Event.scheduled _ start dur => some (start, dur)
    | _ => none

/-- Modelled from the spec: `createPcmBlob`/`encode` from
src/services/audioUtils.ts is imported by geminiService.ts but the file
is absent from src/.  Per spec section 4.1, `encode` clamps and linearly
scales each floating-point sample to a 16-bit signed integer.  One
sample: scale by 32768 (the 16-bit quantization step of section 8 is
1/32768), take the floor, clamp into the signed 16-bit range
[-32768, 32767]. -/
def encodeSample (s : ℚ) : ℤ :=
  min 32767 (max (-32768) ⌊32768 * s⌋)

/-- Modelled from the spec: the little-endian serialization of one
16-bit signed integer into two bytes (spec section 4.1: "serializes
little-endian"). -/
def int16ToBytes (i : ℤ) : List ℕ :=
  [ (i % 65536).toNat % 256, (i % 65536).toNat / 256 ]

/-- Modelled from the spec: reading back one little-endian 16-bit signed
integer from a low and a high byte (spec section 4.1:
`decodeToPlayableAudio` "interprets bytes as 16-bit PCM"). -/
def bytesToInt16 (lo hi : ℕ) : ℤ :=
  let n : ℕ := lo % 256 + 256 * (hi % 256)
  if n < 32768 then (n : ℤ) else (n : ℤ) - 65536

/-- Modelled from the spec: `encode` over a whole sample sequence (spec
section 4.1); an empty input yields an empty payload. -/
def encode (samples : List ℚ) : List ℕ :=
  samples.flatMap fun s => int16ToBytes (encodeSample s)

/-- Modelled from the spec: `decodeToPlayableAudio` normalizing the
16-bit PCM bytes back to the floating-point range (spec section 4.1):
each consecutive byte pair becomes a sample `int16 / 32768`. -/
def decodeBytes : List ℕ → List ℚ
  | lo :: hi :: rest => (bytesToInt16 lo hi : ℚ) / 32768 :: decodeBytes rest
  | _ => []

/-- A concrete decode environment for witnesses: two well-formed
payloads of durations 1s and 1.5s; every other payload is malformed. -/
def sampleDecode : String → Option ℚ := fun d =>
  if d = "one" then some 1 else if d = "threeHalves" then some (3/2) else none

/-- A concrete tool-call handler for witnesses: the handler for the tool
named failTool rejects with message boom, every other handler resolves
with done. -/
def sampleHandler : String → String → HandlerOutcome := fun n _ =>
  if n = "failTool" then HandlerOutcome.thrown "boom" else HandlerOutcome.ok "done"

/-- A concrete state of an open session, as it is after `connect()` and
the transport `onopen` callback: session promise set, both audio
contexts open, microphone pipeline wired. -/
def readyState : LiveState :=
  { sessionPromise := true
    nextStartTime := 0
    sources := []
    nextSourceId := 0
    hasProcessor := true
    processorConnected := true
    processorHasHandler := true
    hasInputSource := true
    inputSourceConnected := true
    hasInputCtx := true
    inputCtxClosed := false
    hasOutputCtx := true
    outputCtxClosed := false }

/-- The scenario message carrying three tool calls a, b, c where the
handler of b (tool failTool) throws. -/
def threeCallsMsg : ServerMessage :=
  ⟨none, false, some [ ⟨"a", "okTool", "x"⟩, ⟨"b", "failTool", "y"⟩, ⟨"c", "okTool", "z"⟩ ]⟩

/-- `sentResponses` distributes over trace concatenation. -/
lemma sentResponses_append (a b : List Event) :
    sentResponses (a ++ b) = sentResponses a ++ sentResponses b :=
  List.filterMap_append a b _

/-- Source-stop events carry no tool responses. -/
lemma sentResponses_stops (l : List ℕ) :
    sentResponses (l.map Event.stopped) = [] := by
  induction l with
  | nil => rfl
  | cons x xs _ => simp [sentResponses]

/-- The audio section of a message emits no tool responses. -/
lemma sentResponses_handleAudio (decodeDur : String → Option ℚ) (clock : ℚ)
    (s : LiveState) (m : ServerMessage) :
    sentResponses (handleAudio decodeDur clock s m).2.1 = [] := by
  unfold handleAudio
  rcases m with ⟨ad, intr, tc⟩
  cases ad with
  | none => rfl
  | some d =>
    simp only
    split
    · rfl
    · split
      · rfl
      · rcases decodeDur d with _ | dur <;> rfl

/-- With the session promise set, the tool-call loop sends exactly the
expected response for each call, in arrival order. -/
lemma sentResponses_handleToolCalls (handler : String → String → HandlerOutcome)
    (s : LiveState) (hs : s.sessionPromise = true) (calls : List ToolCallMsg) :
    sentResponses (handleToolCalls handler s calls) =
      calls.map (expectedResponse handler) := by
  induction calls with
  | nil => rfl
  | cons fc rest ih =>
    simp [handleToolCalls, sentResponses, hs] at ih ⊢
    exact ih

/-- Splitting a `handleServerMessage` run that did not hit a DecodeError
into its three sections. -/
lemma handleServerMessage_eq_of_ok (decodeDur : String → Option ℚ)
    (handler : String → String → HandlerOutcome) (clock : ℚ)
    (s : LiveState) (m : ServerMessage)
    (hok : (handleAudio decodeDur clock s m).2.2 = false) :
    handleServerMessage decodeDur handler clock s m =
      ((interruptStep (handleAudio decodeDur clock s m).1 m).1,
        (handleAudio decodeDur clock s m).2.1 ++
          (interruptStep (handleAudio decodeDur clock s m).1 m).2 ++
          toolStep handler (interruptStep (handleAudio decodeDur clock s m).1 m).1 m,
        false) := by
  unfold handleServerMessage
  rcases hr : handleAudio decodeDur clock s m with ⟨s1, ev1, failed⟩
  rw [hr] at hok
  simp only at hok
  subst hok
  simp [hr]

/-- The interruption section emits only stop events, never responses. -/
lemma sentResponses_interruptStep (s : LiveState) (m : ServerMessage) :
    sentResponses (interruptStep s m).2 = [] := by
  unfold interruptStep
  split
  · exact sentResponses_stops s.sources
  · rfl

/-- The interruption section never changes the session promise. -/
lemma interruptStep_sessionPromise (s : LiveState) (m : ServerMessage) :
    (interruptStep s m).1.sessionPromise = s.sessionPromise := by
  unfold interruptStep stopAllSources
  split <;> rfl

/-- The audio section never changes the session promise. -/
lemma handleAudio_sessionPromise (decodeDur : String → Option ℚ) (clock : ℚ)
    (s : LiveState) (m : ServerMessage) :
    (handleAudio decodeDur clock s m).1.sessionPromise = s.sessionPromise := by
  unfold handleAudio
  rcases m with ⟨ad, intr, tc⟩
  cases ad with
  | none => rfl
  | some d =>
    simp only
    split
    · rfl
    · split
      · rfl
      · rcases decodeDur d with _ | dur <;> rfl

/-- C1 amended.  For every ToolCall received in a server message (with
the session promise set, as it always is once messages arrive, and the
audio section of the same message not hitting a DecodeError), exactly
one ToolResponse is sent per call, carrying the same id and name, with
the handler's value on success and the substituted error payload when
the handler throws; the responses are exactly one per call in order, so
no id gets zero or duplicate responses.  (Unconditionally the property
fails: a DecodeError in the same message aborts the method before the
tool loop, see the counterexample.)  Also the scenario: three calls
a, b, c in one message with the handler of b throwing produce exactly
the three responses a, b (error payload), c. -/
theorem toolCall_exactly_one_response :
    (∀ (decodeDur : String → Option ℚ) (handler : String → String → HandlerOutcome)
        (clock : ℚ) (s : LiveState) (m : ServerMessage) (calls : List ToolCallMsg),
      s.sessionPromise = true →
      m.toolCalls = some calls →
      (handleAudio decodeDur clock s m).2.2 = false →
      sentResponses (handleServerMessage decodeDur handler clock s m).2.1 =
        calls.map (expectedResponse handler)) ∧
    sentResponses (handleServerMessage sampleDecode sampleHandler 0 readyState
        threeCallsMsg).2.1 =
      [ ⟨"a", "okTool", ToolResult.value "done"⟩,
        ⟨"b", "failTool", ToolResult.error "boom"⟩,
        ⟨"c", "okTool", ToolResult.value "done"⟩ ] := by
  constructor
  · intro decodeDur handler clock s m calls hsess hcalls hok
    rw [handleServerMessage_eq_of_ok decodeDur handler clock s m hok]
    simp only [sentResponses_append, sentResponses_handleAudio,
      sentResponses_interruptStep, List.nil_append]
    unfold toolStep
    rw [hcalls]
    simp only
    apply sentResponses_handleToolCalls
    rw [interruptStep_sessionPromise, handleAudio_sessionPromise]
    exact hsess
  · rfl

/-- C1 witness: at the concrete three-call scenario the hypotheses hold
and the general statement instantiates. -/
theorem toolCall_exactly_one_response_witness :
    readyState.sessionPromise = true ∧
    threeCallsMsg.toolCalls =
      some [ ⟨"a", "okTool", "x"⟩, ⟨"b", "failTool", "y"⟩, ⟨"c", "okTool", "z"⟩ ] ∧
    (handleAudio sampleDecode 0 readyState threeCallsMsg).2.2 = false ∧
    sentResponses (handleServerMessage sampleDecode sampleHandler 0 readyState
        threeCallsMsg).2.1 =
      [ ⟨"a", "okTool", "x"⟩, ⟨"b", "failTool", "y"⟩,
        ⟨"c", "okTool", "z"⟩ ].map (expectedResponse sampleHandler) :=
  ⟨rfl, rfl, rfl,
    toolCall_exactly_one_response.1 sampleDecode sampleHandler 0 readyState
      threeCallsMsg _ rfl rfl rfl⟩

/-- The scenario message carrying a 1.0 s audio payload. -/
def audioMsgOne : ServerMessage := ⟨some "one", false, none⟩

/-- The scenario message carrying a 1.5 s audio payload. -/
def audioMsgThreeHalves : ServerMessage := ⟨some "threeHalves", false, none⟩

/-- Complete case analysis of the audio section: no (truthy) payload or
no output context — nothing happens; DecodeError — the cursor is bumped
to `max(currentTime, nextStartTime)` and the invocation aborts;
success — one source is scheduled at the bumped cursor and the cursor
advances by the buffer's duration. -/
lemma handleAudio_cases (decodeDur : String → Option ℚ) (clock : ℚ)
    (s : LiveState) (m : ServerMessage) :
    handleAudio decodeDur clock s m = (s, [], false) ∨
    (∃ d, m.audioData = some d ∧ decodeDur d = none ∧
      handleAudio decodeDur clock s m =
        ({ s with nextStartTime := max clock s.nextStartTime },
          [ Event.volumeLevel (1/2) ], true)) ∨
    (∃ d dur, m.audioData = some d ∧ decodeDur d = some dur ∧
      handleAudio decodeDur clock s m =
        ({ s with nextStartTime := max clock s.nextStartTime + dur
                  sources := s.sources ++ [ s.nextSourceId ]
                  nextSourceId := s.nextSourceId + 1 },
          [ Event.volumeLevel (1/2),
            Event.scheduled s.nextSourceId (max clock s.nextStartTime) dur ],
          false)) := by
  rcases m with ⟨ad, intr, tc⟩
  cases ad with
  | none => exact Or.inl rfl
  | some d =>
    by_cases hne : d = ""
    · exact Or.inl (by simp [handleAudio, hne])
    · by_cases hctx : s.hasOutputCtx = false
      · exact Or.inl (by simp [handleAudio, hne, hctx])
      · cases hdec : decodeDur d with
        | none =>
          refine Or.inr (Or.inl ⟨d, rfl, hdec, ?_⟩)
          simp [handleAudio, hne, hctx, hdec]
        | some dur =>
          refine Or.inr (Or.inr ⟨d, dur, rfl, hdec, ?_⟩)
          simp [handleAudio, hne, hctx, hdec]

/-- `scheduledIntervals` distributes over trace concatenation. -/
lemma scheduledIntervals_append (a b : List Event) :
    scheduledIntervals (a ++ b) = scheduledIntervals a ++ scheduledIntervals b :=
  List.filterMap_append a b _

/-- The tool-call loop schedules no playback. -/
lemma scheduledIntervals_handleToolCalls
    (handler : String → String → HandlerOutcome) (s : LiveState)
    (calls : List ToolCallMsg) :
    scheduledIntervals (handleToolCalls handler s calls) = [] := by
  induction calls with
  | nil => rfl
  | cons fc rest ih =>
    by_cases hs : s.sessionPromise <;>
      simp [handleToolCalls, scheduledIntervals, hs] <;>
      · simp [scheduledIntervals] at ih; exact ih

/-- The tool-call section schedules no playback. -/
lemma scheduledIntervals_toolStep (handler : String → String → HandlerOutcome)
    (s : LiveState) (m : ServerMessage) :
    scheduledIntervals (toolStep handler s m) = [] := by
  unfold toolStep
  rcases m with ⟨ad, intr, tc⟩
  cases tc with
  | none => rfl
  | some calls => exact scheduledIntervals_handleToolCalls handler s calls

/-- The interruption section schedules no playback. -/
lemma scheduledIntervals_interruptStep (s : LiveState) (m : ServerMessage) :
    scheduledIntervals (interruptStep s m).2 = [] := by
  unfold interruptStep
  split
  · unfold stopAllSources
    simp only
    induction s.sources with
    | nil => rfl
    | cons x xs ih => simp [scheduledIntervals]
  · rfl

/-- One non-interrupting server message either schedules nothing and
does not lower the cursor, or schedules exactly one buffer at
`max(currentTime, nextStartTime)` and leaves the cursor right after
it. -/
lemma handleServerMessage_noInterrupt (decodeDur : String → Option ℚ)
    (handler : String → String → HandlerOutcome) (clock : ℚ)
    (s : LiveState) (m : ServerMessage)
    (hintr : m.interrupted = false)
    (hdur : ∀ d q, decodeDur d = some q → 0 ≤ q) :
    (scheduledIntervals (handleServerMessage decodeDur handler clock s m).2.1 = [] ∧
      s.nextStartTime ≤ (handleServerMessage decodeDur handler clock s m).1.nextStartTime) ∨
    (∃ dur, 0 ≤ dur ∧
      scheduledIntervals (handleServerMessage decodeDur handler clock s m).2.1 =
        [ (max clock s.nextStartTime, dur) ] ∧
      (handleServerMessage decodeDur handler clock s m).1.nextStartTime =
        max clock s.nextStartTime + dur) := by
  rcases handleAudio_cases decodeDur clock s m with hA | ⟨d, hd, hdec, hA⟩ |
    ⟨d, dur, hd, hdec, hA⟩
  · left
    simp only [handleServerMessage, hA, interruptStep, hintr, if_false,
      scheduledIntervals_append, scheduledIntervals_toolStep]
    constructor
    · simp [scheduledIntervals]
    · exact le_refl _
  · left
    simp only [handleServerMessage, hA]
    constructor
    · simp [scheduledIntervals]
    · exact le_max_right clock s.nextStartTime
  · right
    refine ⟨dur, hdur d dur hdec, ?_, ?_⟩
    · simp only [handleServerMessage, hA, interruptStep, hintr, if_false,
        scheduledIntervals_append, scheduledIntervals_toolStep]
      simp [scheduledIntervals]
    · simp [handleServerMessage, hA, interruptStep, hintr]

/-- Unfolding one step of `processMessages`. -/
lemma processMessages_cons (decodeDur : String → Option ℚ)
    (handler : String → String → HandlerOutcome) (c : ℚ) (m : ServerMessage)
    (rest : List (ℚ × ServerMessage)) (s : LiveState) :
    processMessages decodeDur handler s ((c, m) :: rest) =
      ((processMessages decodeDur handler
          (handleServerMessage decodeDur handler c s m).1 rest).1,
        (handleServerMessage decodeDur handler c s m).2.1 ++
          (processMessages decodeDur handler
            (handleServerMessage decodeDur handler c s m).1 rest).2) := rfl

/-- The scheduling invariant over a run of non-interrupting messages:
every scheduled interval starts at or after the initial cursor, has
non-negative duration and ends at or before the final cursor; adjacent
intervals neither overlap nor go backwards; and the cursor never
drops. -/
lemma processMessages_sched_invariant (decodeDur : String → Option ℚ)
    (handler : String → String → HandlerOutcome)
    (hdur : ∀ d q, decodeDur d = some q → 0 ≤ q)
    (msgs : List (ℚ × ServerMessage)) :
    ∀ s : LiveState, (∀ p ∈ msgs, p.2.interrupted = false) →
      (∀ q ∈ scheduledIntervals (processMessages decodeDur handler s msgs).2,
        s.nextStartTime ≤ q.1 ∧ 0 ≤ q.2 ∧
          q.1 + q.2 ≤ (processMessages decodeDur handler s msgs).1.nextStartTime) ∧
      List.Chain' (fun a b : ℚ × ℚ => a.1 + a.2 ≤ b.1 ∧ a.1 ≤ b.1)
        (scheduledIntervals (processMessages decodeDur handler s msgs).2) ∧
      s.nextStartTime ≤ (processMessages decodeDur handler s msgs).1.nextStartTime := by
  induction msgs with
  | nil =>
    intro s _
    simp [processMessages, scheduledIntervals]
  | cons cm rest ih =>
    obtain ⟨c, m⟩ := cm
    intro s hni
    have hm : m.interrupted = false := hni (c, m) (List.mem_cons_self _ _)
    have hrest : ∀ p ∈ rest, p.2.interrupted = false :=
      fun p hp => hni p (List.mem_cons_of_mem _ hp)
    obtain ⟨helem, hchain, hle⟩ :=
      ih (handleServerMessage decodeDur handler c s m).1 hrest
    rw [processMessages_cons]
    simp only [scheduledIntervals_append]
    rcases handleServerMessage_noInterrupt decodeDur handler c s m hm hdur with
      ⟨hI1, hnst⟩ | ⟨dur, hdur0, hI1, hnst⟩
    · rw [hI1, List.nil_append]
      refine ⟨?_, hchain, hnst.trans hle⟩
      intro q hq
      obtain ⟨h1, h2, h3⟩ := helem q hq
      exact ⟨hnst.trans h1, h2, h3⟩
    · rw [hI1, List.singleton_append]
      have hstart : s.nextStartTime ≤ max c s.nextStartTime :=
        le_max_right c s.nextStartTime
      have hnst1 : s.nextStartTime ≤
          (handleServerMessage decodeDur handler c s m).1.nextStartTime := by
        rw [hnst]; linarith
      refine ⟨?_, ?_, hnst1.trans hle⟩
      · intro q hq
        rcases List.mem_cons.mp hq with hq1 | hq2
        · subst hq1
          refine ⟨hstart, hdur0, ?_⟩
          rw [← hnst]; exact hle
        · obtain ⟨h1, h2, h3⟩ := helem q hq2
          exact ⟨hnst1.trans h1, h2, h3⟩
      · rw [List.chain'_cons']
        refine ⟨?_, hchain⟩
        intro b hb
        have hmem : b ∈ scheduledIntervals
            (processMessages decodeDur handler
              (handleServerMessage decodeDur handler c s m).1 rest).2 :=
          List.mem_of_mem_head? hb
        obtain ⟨h1, _, _⟩ := helem b hmem
        rw [hnst] at h1
        exact ⟨h1, by linarith⟩

/-- The concrete decode environment only ever yields non-negative
durations. -/
lemma sampleDecode_nonneg : ∀ d q, sampleDecode d = some q → 0 ≤ q := by
  intro d q h
  unfold sampleDecode at h
  split at h
  · simp only [Option.some_inj] at h
    rw [← h]; norm_num
  · split at h
    · simp only [Option.some_inj] at h
      rw [← h]; norm_num
    · cases h

/-- C2.  Over any sequence of inbound audio payloads (no interruption
signals) processed in arrival order, each buffer starts at
`max(audioClockNow, nextStartTime)` and the cursor advances by its
duration, so the scheduled intervals never overlap and the start times
are non-decreasing.  Also the scenario: buffers of 1.0 s and 1.5 s
arriving back-to-back with the audio clock at 0 are scheduled at t = 0
and t = 1.0, leaving the cursor at 2.5. -/
theorem playback_schedule_monotone :
    (∀ (decodeDur : String → Option ℚ) (handler : String → String → HandlerOutcome)
        (msgs : List (ℚ × ServerMessage)) (s : LiveState),
      (∀ d q, decodeDur d = some q → 0 ≤ q) →
      (∀ p ∈ msgs, p.2.interrupted = false) →
      List.Chain' (fun a b : ℚ × ℚ => a.1 + a.2 ≤ b.1)
        (scheduledIntervals (processMessages decodeDur handler s msgs).2) ∧
      List.Chain' (fun a b : ℚ => a ≤ b)
        ((scheduledIntervals (processMessages decodeDur handler s msgs).2).map
          Prod.fst)) ∧
    scheduledIntervals (processMessages sampleDecode sampleHandler readyState
        [ (0, audioMsgOne), (0, audioMsgThreeHalves) ]).2 = [ (0, 1), (1, 3/2) ] ∧
    (processMessages sampleDecode sampleHandler readyState
        [ (0, audioMsgOne), (0, audioMsgThreeHalves) ]).1.nextStartTime = 5/2 := by
  refine ⟨?_, ?_, ?_⟩
  case refine_2 =>
    simp [processMessages, handleServerMessage, handleAudio, interruptStep,
      toolStep, stopAllSources, scheduledIntervals, sampleDecode, sampleHandler,
      readyState, audioMsgOne, audioMsgThreeHalves, max_def]
  case refine_3 =>
    simp [processMessages, handleServerMessage, handleAudio, interruptStep,
      toolStep, stopAllSources, sampleDecode, sampleHandler,
      readyState, audioMsgOne, audioMsgThreeHalves, max_def]
    norm_num
  intro decodeDur handler msgs s hdur hni
  obtain ⟨_, hchain, _⟩ := processMessages_sched_invariant decodeDur handler hdur msgs s hni
  constructor
  · exact hchain.imp fun a b h => h.1
  · rw [List.chain'_map]
    exact hchain.imp fun a b h => h.2

/-- C2 witness: the general statement instantiated at the concrete
two-buffer scenario, with both hypotheses discharged there. -/
theorem playback_schedule_monotone_witness :
    (∀ d q, sampleDecode d = some q → 0 ≤ q) ∧
    (∀ p ∈ [ ((0 : ℚ), audioMsgOne), (0, audioMsgThreeHalves) ],
      (Prod.snd p).interrupted = false) ∧
    List.Chain' (fun a b : ℚ × ℚ => a.1 + a.2 ≤ b.1)
      (scheduledIntervals (processMessages sampleDecode sampleHandler readyState
        [ (0, audioMsgOne), (0, audioMsgThreeHalves) ]).2) :=
  ⟨sampleDecode_nonneg, by decide,
    (playback_schedule_monotone.1 sampleDecode sampleHandler
      [ (0, audioMsgOne), (0, audioMsgThreeHalves) ] readyState
      sampleDecode_nonneg (by decide)).1⟩

/-- A concrete open-session state with two sources scheduled and the
cursor at 2.5 s. -/
def busyState : LiveState :=
  { readyState with sources := [ 0, 1 ], nextSourceId := 2, nextStartTime := 5/2 }

/-- A server message carrying only an interruption signal. -/
def interruptMsg : ServerMessage := ⟨none, true, none⟩

/-- The tool-call loop emits no stop events. -/
lemma stopped_not_mem_handleToolCalls (handler : String → String → HandlerOutcome)
    (s : LiveState) (calls : List ToolCallMsg) (sid : ℕ) :
    Event.stopped sid ∉ handleToolCalls handler s calls := by
  induction calls with
  | nil => simp [handleToolCalls]
  | cons fc rest ih =>
    by_cases hs : s.sessionPromise <;> simp [handleToolCalls, hs, ih]

/-- The tool-call section emits no stop events. -/
lemma stopped_not_mem_toolStep (handler : String → String → HandlerOutcome)
    (s : LiveState) (m : ServerMessage) (sid : ℕ) :
    Event.stopped sid ∉ toolStep handler s m := by
  unfold toolStep
  rcases m with ⟨ad, intr, tc⟩
  cases tc with
  | none => simp
  | some calls => exact stopped_not_mem_handleToolCalls handler _ calls sid

/-- The audio section never removes sources: it keeps the active set or
appends the freshly created source. -/
lemma handleAudio_sources (decodeDur : String → Option ℚ) (clock : ℚ)
    (s : LiveState) (m : ServerMessage) :
    (handleAudio decodeDur clock s m).1.sources = s.sources ∨
    (handleAudio decodeDur clock s m).1.sources = s.sources ++ [ s.nextSourceId ] := by
  rcases handleAudio_cases decodeDur clock s m with hA | ⟨d, _, _, hA⟩ | ⟨d, dur, _, _, hA⟩ <;>
    rw [hA]
  · exact Or.inl rfl
  · exact Or.inl rfl
  · exact Or.inr rfl

/-- C3.  Processing a server message whose interruption flag is set (and
whose audio payload, if attempted, decodes) leaves the active
output-source set empty and `nextStartTime` at 0, and every source that
was scheduled beforehand receives a stop event; when no sources are
active and the message carries nothing else, the interruption is a
no-op apart from resetting the cursor: no stop event is emitted and the
state only changes in `nextStartTime`. -/
theorem interruption_clears_state (decodeDur : String → Option ℚ)
    (handler : String → String → HandlerOutcome) (clock : ℚ)
    (s : LiveState) (m : ServerMessage)
    (hintr : m.interrupted = true)
    (hok : (handleAudio decodeDur clock s m).2.2 = false) :
    (handleServerMessage decodeDur handler clock s m).1.sources = [] ∧
    (handleServerMessage decodeDur handler clock s m).1.nextStartTime = 0 ∧
    (∀ sid ∈ s.sources,
      Event.stopped sid ∈ (handleServerMessage decodeDur handler clock s m).2.1) ∧
    (s.sources = [] → m.audioData = none →
      (handleServerMessage decodeDur handler clock s m).1 =
        { s with nextStartTime := 0 } ∧
      ∀ sid : ℕ, Event.stopped sid ∉
        (handleServerMessage decodeDur handler clock s m).2.1) := by
  rw [handleServerMessage_eq_of_ok decodeDur handler clock s m hok]
  simp only [interruptStep, hintr, if_true]
  refine ⟨rfl, rfl, ?_, ?_⟩
  · intro sid hsid
    have hmem : sid ∈ (handleAudio decodeDur clock s m).1.sources := by
      rcases handleAudio_sources decodeDur clock s m with h | h <;> rw [h]
      · exact hsid
      · exact List.mem_append_left _ hsid
    simp only [stopAllSources, List.mem_append]
    exact Or.inl (Or.inr (List.mem_map_of_mem Event.stopped hmem))
  · intro hempty hnoaudio
    have hA : handleAudio decodeDur clock s m = (s, [], false) := by
      unfold handleAudio
      rw [hnoaudio]
    rw [hA]
    constructor
    · simp [stopAllSources, hempty]
    · intro sid h
      rw [List.mem_append] at h
      rcases h with h1 | h2
      · rw [List.mem_append] at h1
        rcases h1 with h3 | h4
        · simp at h3
        · simp [stopAllSources, hempty] at h4
      · exact stopped_not_mem_toolStep handler _ _ sid h2

/-- C3 witness: interrupting the concrete busy state (two active
sources, cursor at 2.5) empties the set and zeroes the cursor. -/
theorem interruption_clears_state_witness :
    interruptMsg.interrupted = true ∧
    (handleAudio sampleDecode 0 busyState interruptMsg).2.2 = false ∧
    ((handleServerMessage sampleDecode sampleHandler 0 busyState interruptMsg).1.sources
        = [] ∧
      (handleServerMessage sampleDecode sampleHandler 0 busyState
          interruptMsg).1.nextStartTime = 0 ∧
      (∀ sid ∈ busyState.sources,
        Event.stopped sid ∈
          (handleServerMessage sampleDecode sampleHandler 0 busyState
            interruptMsg).2.1) ∧
      (busyState.sources = [] → interruptMsg.audioData = none →
        (handleServerMessage sampleDecode sampleHandler 0 busyState interruptMsg).1 =
          { busyState with nextStartTime := 0 } ∧
        ∀ sid : ℕ, Event.stopped sid ∉
          (handleServerMessage sampleDecode sampleHandler 0 busyState
            interruptMsg).2.1)) :=
  ⟨rfl, rfl,
    interruption_clears_state sampleDecode sampleHandler 0 busyState interruptMsg
      rfl rfl⟩

/-- C4 counterexample: the claim says `nextStartTime` never decreases
across any operation, but handling an interruption at the concrete busy
state drops the cursor from 2.5 to 0. -/
theorem nextStartTime_drops_on_interrupt :
    (handleServerMessage sampleDecode sampleHandler 0 busyState
        interruptMsg).1.nextStartTime <
      busyState.nextStartTime := by
  norm_num [handleServerMessage, handleAudio, interruptStep, stopAllSources,
    busyState, readyState, interruptMsg]

/-- C4 amended.  The `nextStartTime` cursor never decreases across audio
scheduling, tool-call handling (any message without the interruption
flag, decoded durations being non-negative) or `disconnect`; the one
exception the code makes is interruption handling, where
`stopAllSources` resets the cursor to 0. -/
theorem nextStartTime_monotone_except_interrupt (decodeDur : String → Option ℚ)
    (handler : String → String → HandlerOutcome) (clock : ℚ)
    (s : LiveState) (m : ServerMessage)
    (hdur : ∀ d q, decodeDur d = some q → 0 ≤ q)
    (hintr : m.interrupted = false) :
    s.nextStartTime ≤ (handleServerMessage decodeDur handler clock s m).1.nextStartTime ∧
    (disconnect s).nextStartTime = s.nextStartTime ∧
    (stopAllSources s).1.nextStartTime = 0 := by
  refine ⟨?_, ?_, rfl⟩
  · rcases handleServerMessage_noInterrupt decodeDur handler clock s m hintr hdur with
      ⟨_, hnst⟩ | ⟨dur, hdur0, _, hnst⟩
    · exact hnst
    · rw [hnst]
      have := le_max_right clock s.nextStartTime
      linarith
  · unfold disconnect
    by_cases h1 : s.hasProcessor <;> by_cases h2 : s.hasInputSource <;>
      by_cases h3 : s.hasInputCtx <;> by_cases h4 : s.hasOutputCtx <;>
      simp [h1, h2, h3, h4]

/-- C4 amended witness: the amended statement instantiated at the busy
state and a pure audio message. -/
theorem nextStartTime_monotone_except_interrupt_witness :
    (∀ d q, sampleDecode d = some q → 0 ≤ q) ∧
    audioMsgOne.interrupted = false ∧
    (busyState.nextStartTime ≤
        (handleServerMessage sampleDecode sampleHandler 0 busyState
          audioMsgOne).1.nextStartTime ∧
      (disconnect busyState).nextStartTime = busyState.nextStartTime ∧
      (stopAllSources busyState).1.nextStartTime = 0) :=
  ⟨sampleDecode_nonneg, rfl,
    nextStartTime_monotone_except_interrupt sampleDecode sampleHandler 0 busyState
      audioMsgOne sampleDecode_nonneg rfl⟩

/-- The encoded sample always fits the signed 16-bit range. -/
lemma encodeSample_range (s : ℚ) :
    -32768 ≤ encodeSample s ∧ encodeSample s ≤ 32767 := by
  unfold encodeSample
  constructor
  · exact le_min (by norm_num) (le_max_left _ _)
  · exact min_le_left _ _

/-- Little-endian 16-bit serialization followed by deserialization is
the identity on the signed 16-bit range. -/
lemma bytesToInt16_roundtrip (i : ℤ) (h1 : -32768 ≤ i) (h2 : i ≤ 32767) :
    bytesToInt16 ((i % 65536).toNat % 256) ((i % 65536).toNat / 256) = i := by
  unfold bytesToInt16
  have hmod : (0:ℤ) ≤ i % 65536 := Int.emod_nonneg i (by norm_num)
  have hlt : i % 65536 < 65536 := Int.emod_lt_of_pos i (by norm_num)
  dsimp only
  split <;> omega

/-- Decoding peels off one serialized sample. -/
lemma decodeBytes_int16ToBytes (i : ℤ) (h1 : -32768 ≤ i) (h2 : i ≤ 32767)
    (rest : List ℕ) :
    decodeBytes (int16ToBytes i ++ rest) = (i : ℚ)/32768 :: decodeBytes rest := by
  show decodeBytes ((i % 65536).toNat % 256 :: (i % 65536).toNat / 256 :: rest) = _
  rw [decodeBytes, bytesToInt16_roundtrip i h1 h2]

/-- One encoded sample decodes back to within one 16-bit quantization
step (1/32768) of the original, for originals in [-1, 1]. -/
lemma encodeSample_close (s : ℚ) (h1 : -1 ≤ s) (h2 : s ≤ 1) :
    |s - (encodeSample s : ℚ)/32768| ≤ 1/32768 := by
  unfold encodeSample
  have hfl : (⌊(32768 : ℚ) * s⌋ : ℚ) ≤ 32768 * s := Int.floor_le _
  have hfu : (32768 : ℚ) * s < ⌊(32768 : ℚ) * s⌋ + 1 := Int.lt_floor_add_one _
  have hlow : (-32768 : ℤ) ≤ ⌊(32768 : ℚ) * s⌋ := by
    apply Int.le_floor.mpr
    push_cast
    linarith
  rw [max_eq_right hlow]
  by_cases hhi : ⌊(32768 : ℚ) * s⌋ ≤ 32767
  · rw [min_eq_right hhi]
    rw [abs_sub_le_iff]
    constructor <;> linarith
  · push_neg at hhi
    have hge : (32768 : ℚ) ≤ (⌊(32768 : ℚ) * s⌋ : ℚ) := by
      exact_mod_cast hhi
    rw [min_eq_left (by omega)]
    rw [abs_sub_le_iff]
    push_cast
    constructor <;> linarith

/-- Round-trip over a whole sample list: same length, each decoded value
within 1/32768 of the original. -/
lemma decode_encode (samples : List ℚ) (h : ∀ x ∈ samples, -1 ≤ x ∧ x ≤ 1) :
    List.Forall₂ (fun a b : ℚ => |a - b| ≤ 1/32768) samples
      (decodeBytes (encode samples)) := by
  induction samples with
  | nil => simp [encode, decodeBytes]
  | cons x xs ih =>
    have hx := h x (List.mem_cons_self _ _)
    have hxs : ∀ y ∈ xs, -1 ≤ y ∧ y ≤ 1 :=
      fun y hy => h y (List.mem_cons_of_mem _ hy)
    have hrange := encodeSample_range x
    have henc : encode (x :: xs) = int16ToBytes (encodeSample x) ++ encode xs := rfl
    rw [henc, decodeBytes_int16ToBytes _ hrange.1 hrange.2]
    exact List.Forall₂.cons (encodeSample_close x hx.1 hx.2) (ih hxs)

/-- C5.  Modelled from the spec (audio codec utilities are not under
src/): encoding a sequence of samples in [-1, 1] as 16-bit signed
little-endian PCM and decoding back yields a sequence of the same
length whose values are within the 16-bit quantization error 1/32768 of
the originals, for every length N ≥ 0; N = 0 gives the empty payload
and empty decoded result rather than an error, and the scenario
[0.5, -0.5, 0.0] round-trips exactly. -/
theorem codec_roundtrip :
    (∀ samples : List ℚ, (∀ x ∈ samples, -1 ≤ x ∧ x ≤ 1) →
      List.Forall₂ (fun a b : ℚ => |a - b| ≤ 1/32768) samples
        (decodeBytes (encode samples))) ∧
    encode [] = [] ∧
    decodeBytes (encode []) = [] ∧
    decodeBytes (encode [ 1/2, -1/2, 0 ]) = [ 1/2, -1/2, 0 ] := by
  refine ⟨decode_encode, rfl, rfl, ?_⟩
  norm_num [encode, encodeSample, int16ToBytes, decodeBytes, bytesToInt16,
    Int.toNat]

/-- C5 witness: the round-trip statement instantiated at the scenario
samples [0.5, -0.5, 0.0], whose membership hypothesis is discharged
concretely. -/
theorem codec_roundtrip_witness :
    (∀ x ∈ [ (1:ℚ)/2, -1/2, 0 ], -1 ≤ x ∧ x ≤ 1) ∧
    List.Forall₂ (fun a b : ℚ => |a - b| ≤ 1/32768) [ 1/2, -1/2, 0 ]
      (decodeBytes (encode [ 1/2, -1/2, 0 ])) :=
  ⟨by norm_num, codec_roundtrip.1 [ 1/2, -1/2, 0 ] (by norm_num)⟩

/-- A message with a malformed audio payload and one tool call in the
same message. -/
def badAudioToolMsg : ServerMessage :=
  ⟨some "garbled", false, some [ ⟨"a", "okTool", "x"⟩ ]⟩

/-- A message carrying one tool call and nothing else. -/
def toolOnlyMsg : ServerMessage := ⟨none, false, some [ ⟨"a", "okTool", "x"⟩ ]⟩

/-- C1 counterexample: the claim promises exactly one ToolResponse for
every ToolCall received, unconditionally; but when the same message also
carries a malformed audio payload, the escaped DecodeError aborts the
method before the tool loop runs, so the received call (id a) gets zero
responses. -/
theorem toolcall_zero_responses_on_decode_error :
    badAudioToolMsg.toolCalls = some [ ⟨"a", "okTool", "x"⟩ ] ∧
    readyState.sessionPromise = true ∧
    sentResponses (handleServerMessage sampleDecode sampleHandler 0 readyState
        badAudioToolMsg).2.1 = [] := by
  refine ⟨rfl, rfl, rfl⟩

/-- C6 counterexample: the claim says a DecodeError is caught
per-message, but at a concrete message with a malformed payload the
rejection escapes `handleServerMessage` (the decode-failed flag is set:
there is no try/catch in the method) and the tool call carried by the
same message is never answered. -/
theorem decode_error_not_caught :
    (handleServerMessage sampleDecode sampleHandler 0 readyState
        badAudioToolMsg).2.2 = true ∧
    sentResponses (handleServerMessage sampleDecode sampleHandler 0 readyState
        badAudioToolMsg).2.1 = [] := by
  constructor <;> rfl

/-- C6 amended.  A DecodeError is not caught: it aborts the remainder of
that message's handling (its interruption and tool-call sections never
run, so the whole effect of the message is the volume callback and the
cursor bump to `max(currentTime, nextStartTime)`), but it does not
terminate the session: all subsequent messages are processed exactly as
they would be from that bumped state. -/
theorem decode_error_skips_message_only (decodeDur : String → Option ℚ)
    (handler : String → String → HandlerOutcome) (c : ℚ)
    (s : LiveState) (m : ServerMessage) (d : String)
    (rest : List (ℚ × ServerMessage))
    (hd : m.audioData = some d) (hne : d ≠ "") (hctx : s.hasOutputCtx = true)
    (hfail : decodeDur d = none) :
    processMessages decodeDur handler s ((c, m) :: rest) =
      ((processMessages decodeDur handler
          { s with nextStartTime := max c s.nextStartTime } rest).1,
        Event.volumeLevel (1/2) ::
          (processMessages decodeDur handler
            { s with nextStartTime := max c s.nextStartTime } rest).2) := by
  have hA : handleAudio decodeDur c s m =
      ({ s with nextStartTime := max c s.nextStartTime },
        [ Event.volumeLevel (1/2) ], true) := by
    unfold handleAudio
    rw [hd]
    simp [hne, hctx, hfail]
  have hH : handleServerMessage decodeDur handler c s m =
      ({ s with nextStartTime := max c s.nextStartTime },
        [ Event.volumeLevel (1/2) ], true) := by
    unfold handleServerMessage
    rw [hA]
  rw [processMessages_cons, hH]
  simp

/-- C6 amended witness: a malformed payload followed by a well-formed
audio message, instantiating the amended statement concretely. -/
theorem decode_error_skips_message_only_witness :
    badAudioToolMsg.audioData = some "garbled" ∧
    ("garbled" : String) ≠ "" ∧
    readyState.hasOutputCtx = true ∧
    sampleDecode "garbled" = none ∧
    processMessages sampleDecode sampleHandler readyState
        ((0, badAudioToolMsg) :: [ (0, audioMsgOne) ]) =
      ((processMessages sampleDecode sampleHandler
          { readyState with nextStartTime := max 0 readyState.nextStartTime }
          [ (0, audioMsgOne) ]).1,
        Event.volumeLevel (1/2) ::
          (processMessages sampleDecode sampleHandler
            { readyState with nextStartTime := max 0 readyState.nextStartTime }
            [ (0, audioMsgOne) ]).2) :=
  ⟨rfl, by decide, rfl, rfl,
    decode_error_skips_message_only sampleDecode sampleHandler 0 readyState
      badAudioToolMsg "garbled" [ (0, audioMsgOne) ] rfl (by decide) rfl rfl⟩

/-- C7 counterexample: the claim says response sending becomes a no-op
after `disconnect()`, but `disconnect` never clears `sessionPromise`, so
a tool call handled after disconnecting the concrete ready state still
sends its response. -/
theorem responses_still_sent_after_disconnect :
    (disconnect readyState).sessionPromise = true ∧
    sentResponses (handleServerMessage sampleDecode sampleHandler 0
        (disconnect readyState) toolOnlyMsg).2.1 =
      [ ⟨"a", "okTool", ToolResult.value "done"⟩ ] := by
  constructor <;> rfl

/-- C7 amended.  `disconnect()` tears down only the audio pipeline: it
leaves `sessionPromise` untouched, so tool-call handlers completing
after a disconnect still send their ToolResponses exactly as before
(one per call, in order) — the code has no guard against sending on a
torn-down session. -/
theorem disconnect_keeps_response_path (decodeDur : String → Option ℚ)
    (handler : String → String → HandlerOutcome) (clock : ℚ)
    (s : LiveState) (calls : List ToolCallMsg)
    (hsess : s.sessionPromise = true) :
    (disconnect s).sessionPromise = true ∧
    sentResponses (handleServerMessage decodeDur handler clock (disconnect s)
        ⟨none, false, some calls⟩).2.1 = calls.map (expectedResponse handler) := by
  have hsp : (disconnect s).sessionPromise = true := by
    unfold disconnect
    by_cases h1 : s.hasProcessor <;> by_cases h2 : s.hasInputSource <;>
      by_cases h3 : s.hasInputCtx <;> by_cases h4 : s.hasOutputCtx <;>
      simp [h1, h2, h3, h4, hsess]
  refine ⟨hsp, ?_⟩
  rw [handleServerMessage_eq_of_ok decodeDur handler clock (disconnect s)
    ⟨none, false, some calls⟩ rfl]
  simp only [sentResponses_append, sentResponses_handleAudio,
    sentResponses_interruptStep, List.nil_append]
  unfold toolStep
  simp only
  apply sentResponses_handleToolCalls
  rw [interruptStep_sessionPromise, handleAudio_sessionPromise]
  exact hsp

/-- C7 amended witness: the amended statement instantiated at the ready
state and a single tool call. -/
theorem disconnect_keeps_response_path_witness :
    readyState.sessionPromise = true ∧
    sentResponses (handleServerMessage sampleDecode sampleHandler 0
        (disconnect readyState)
        ⟨none, false, some [ ⟨"a", "okTool", "x"⟩ ]⟩).2.1 =
      [ ⟨"a", "okTool", "x"⟩ ].map (expectedResponse sampleHandler) :=
  ⟨rfl,
    (disconnect_keeps_response_path sampleDecode sampleHandler 0 readyState
      [ ⟨"a", "okTool", "x"⟩ ] rfl).2⟩

/-- `disconnect` as a single record update: the conditions of the four
source-level ifs only read the `has…` fields, which no branch writes. -/
lemma disconnect_eq (s : LiveState) :
    disconnect s =
      { s with
        processorConnected := if s.hasProcessor then false else s.processorConnected
        processorHasHandler := if s.hasProcessor then false else s.processorHasHandler
        inputSourceConnected :=
          if s.hasInputSource then false else s.inputSourceConnected
        inputCtxClosed := if s.hasInputCtx then true else s.inputCtxClosed
        outputCtxClosed := if s.hasOutputCtx then true else s.outputCtxClosed } := by
  rcases s with ⟨sp, nst, src, nid, hp, pc, ph, his, isc, hic, icc, hoc, occ⟩
  cases hp <;> cases his <;> cases hic <;> cases hoc <;> rfl

/-- C8.  `disconnect()` is idempotent and safe from any state: calling
it twice equals calling it once; calling it on the freshly constructed
state (before `connect()`) is a no-op; when the pipeline exists it stops
the capture processor (disconnects it and nulls its audio handler),
disconnects the microphone source and closes both audio contexts; and it
corrupts no other state (session promise, cursor and source set are
untouched). -/
theorem disconnect_idempotent_safe (s : LiveState) :
    disconnect (disconnect s) = disconnect s ∧
    disconnect initialState = initialState ∧
    (s.hasProcessor = true → (disconnect s).processorConnected = false ∧
      (disconnect s).processorHasHandler = false) ∧
    (s.hasInputSource = true → (disconnect s).inputSourceConnected = false) ∧
    (s.hasInputCtx = true → (disconnect s).inputCtxClosed = true) ∧
    (s.hasOutputCtx = true → (disconnect s).outputCtxClosed = true) ∧
    (disconnect s).sessionPromise = s.sessionPromise ∧
    (disconnect s).nextStartTime = s.nextStartTime ∧
    (disconnect s).sources = s.sources := by
  rcases s with ⟨sp, nst, src, nid, hp, pc, ph, his, isc, hic, icc, hoc, occ⟩
  cases hp <;> cases his <;> cases hic <;> cases hoc <;>
    simp [disconnect, initialState]

/-- C8 witness: the statement instantiated at the ready state, where the
whole pipeline exists. -/
theorem disconnect_idempotent_safe_witness :
    readyState.hasProcessor = true ∧
    readyState.hasInputSource = true ∧
    readyState.hasInputCtx = true ∧
    readyState.hasOutputCtx = true ∧
    (disconnect (disconnect readyState) = disconnect readyState ∧
      disconnect initialState = initialState ∧
      (readyState.hasProcessor = true →
        (disconnect readyState).processorConnected = false ∧
        (disconnect readyState).processorHasHandler = false) ∧
      (readyState.hasInputSource = true →
        (disconnect readyState).inputSourceConnected = false) ∧
      (readyState.hasInputCtx = true →
        (disconnect readyState).inputCtxClosed = true) ∧
      (readyState.hasOutputCtx = true →
        (disconnect readyState).outputCtxClosed = true) ∧
      (disconnect readyState).sessionPromise = readyState.sessionPromise ∧
      (disconnect readyState).nextStartTime = readyState.nextStartTime ∧
      (disconnect readyState).sources = readyState.sources) :=
  ⟨rfl, rfl, rfl, rfl, disconnect_idempotent_safe readyState⟩

/-- A message carrying two tool calls, the second of which has a
throwing handler. -/
def twoCallsMsg : ServerMessage :=
  ⟨none, false, some [ ⟨"a", "okTool", "x"⟩, ⟨"b", "failTool", "y"⟩ ]⟩

/-- C9 counterexample: the claim says handlers run concurrently and
responses may overtake each other, but the loop awaits each handler
before touching the next call: at a concrete two-call message the trace
shows the first call invoked and answered strictly before the second is
even invoked — serialized, in arrival order, never out of order. -/
theorem toolcalls_serialized_trace :
    (handleServerMessage sampleDecode sampleHandler 0 readyState
        twoCallsMsg).2.1 =
      [ Event.invokeHandler "a" "okTool",
        Event.sentResponse ⟨"a", "okTool", ToolResult.value "done"⟩,
        Event.invokeHandler "b" "failTool",
        Event.sentResponse ⟨"b", "failTool", ToolResult.error "boom"⟩ ] := by
  rfl

/-- The tool-call loop unfolds to the strictly sequential interleaving
invoke–respond–invoke–respond when the session promise is set. -/
lemma handleToolCalls_eq_flatMap (handler : String → String → HandlerOutcome)
    (s : LiveState) (hs : s.sessionPromise = true) (calls : List ToolCallMsg) :
    handleToolCalls handler s calls =
      calls.flatMap (fun fc =>
        [ Event.invokeHandler fc.id fc.name,
          Event.sentResponse (expectedResponse handler fc) ]) := by
  induction calls with
  | nil => rfl
  | cons fc rest ih => simp [handleToolCalls, hs, ih]

/-- The handler invocations of the tool-call loop are the calls in
arrival order. -/
lemma invokedCalls_handleToolCalls (handler : String → String → HandlerOutcome)
    (s : LiveState) (calls : List ToolCallMsg) :
    invokedCalls (handleToolCalls handler s calls) =
      calls.map (fun fc => (fc.id, fc.name)) := by
  induction calls with
  | nil => rfl
  | cons fc rest ih =>
    by_cases hs : s.sessionPromise <;>
      simp [handleToolCalls, invokedCalls, hs] <;>
      · simp [invokedCalls] at ih; exact ih

/-- C9 amended.  Tool calls in one message are handled strictly
sequentially, not concurrently: the trace is the interleaving
invoke(c1), respond(c1), invoke(c2), respond(c2), … — each call's
handler is awaited and its response emitted before the next call's
handler is invoked — so handlers run in arrival order and responses are
sent in arrival order, each call answered exactly once. -/
theorem toolcalls_sequential (decodeDur : String → Option ℚ)
    (handler : String → String → HandlerOutcome) (clock : ℚ)
    (s : LiveState) (calls : List ToolCallMsg)
    (hsess : s.sessionPromise = true) :
    (handleServerMessage decodeDur handler clock s
        ⟨none, false, some calls⟩).2.1 =
      calls.flatMap (fun fc =>
        [ Event.invokeHandler fc.id fc.name,
          Event.sentResponse (expectedResponse handler fc) ]) ∧
    invokedCalls (handleServerMessage decodeDur handler clock s
        ⟨none, false, some calls⟩).2.1 =
      calls.map (fun fc => (fc.id, fc.name)) ∧
    sentResponses (handleServerMessage decodeDur handler clock s
        ⟨none, false, some calls⟩).2.1 =
      calls.map (expectedResponse handler) := by
  have hH : (handleServerMessage decodeDur handler clock s
      ⟨none, false, some calls⟩).2.1 = handleToolCalls handler s calls := rfl
  rw [hH]
  exact ⟨handleToolCalls_eq_flatMap handler s hsess calls,
    invokedCalls_handleToolCalls handler s calls,
    sentResponses_handleToolCalls handler s hsess calls⟩

/-- C9 amended witness: the sequential-trace statement instantiated at
the concrete two-call message. -/
theorem toolcalls_sequential_witness :
    readyState.sessionPromise = true ∧
    (handleServerMessage sampleDecode sampleHandler 0 readyState
        ⟨none, false, some [ ⟨"a", "okTool", "x"⟩, ⟨"b", "failTool", "y"⟩ ]⟩).2.1 =
      [ ⟨"a", "okTool", "x"⟩, ⟨"b", "failTool", "y"⟩ ].flatMap
        (fun fc : ToolCallMsg =>
          [ Event.invokeHandler fc.id fc.name,
            Event.sentResponse (expectedResponse sampleHandler fc) ]) :=
  ⟨rfl,
    (toolcalls_sequential sampleDecode sampleHandler 0 readyState
      [ ⟨"a", "okTool", "x"⟩, ⟨"b", "failTool", "y"⟩ ] rfl).1⟩

/-- A message carrying an audio payload, the interruption flag and one
tool call all at once. -/
def fullMsg : ServerMessage :=
  ⟨some "one", true, some [ ⟨"a", "okTool", "x"⟩ ]⟩

/-- C10.  Within one server message the sections run in the fixed order
audio, interruption, tool calls: when a message carries both a decodable
audio payload and the interruption flag, the payload is scheduled first
and then stopped by the interruption in the same invocation, leaving the
active set empty and the cursor at 0; the just-created source receives a
stop event, and the trace is exactly volume, schedule, stops (old
sources then the new one), then the tool events. -/
theorem message_sections_ordered (decodeDur : String → Option ℚ)
    (handler : String → String → HandlerOutcome) (clock : ℚ)
    (s : LiveState) (m : ServerMessage) (d : String) (dur : ℚ)
    (hd : m.audioData = some d) (hne : d ≠ "") (hctx : s.hasOutputCtx = true)
    (hdec : decodeDur d = some dur) (hintr : m.interrupted = true) :
    (handleServerMessage decodeDur handler clock s m).1.sources = [] ∧
    (handleServerMessage decodeDur handler clock s m).1.nextStartTime = 0 ∧
    Event.stopped s.nextSourceId ∈
      (handleServerMessage decodeDur handler clock s m).2.1 ∧
    (handleServerMessage decodeDur handler clock s m).2.1 =
      Event.volumeLevel (1/2) ::
        Event.scheduled s.nextSourceId (max clock s.nextStartTime) dur ::
        ((s.sources ++ [ s.nextSourceId ]).map Event.stopped ++
          toolStep handler (handleServerMessage decodeDur handler clock s m).1 m) := by
  have hA : handleAudio decodeDur clock s m =
      ({ s with nextStartTime := max clock s.nextStartTime + dur
                sources := s.sources ++ [ s.nextSourceId ]
                nextSourceId := s.nextSourceId + 1 },
        [ Event.volumeLevel (1/2),
          Event.scheduled s.nextSourceId (max clock s.nextStartTime) dur ],
        false) := by
    unfold handleAudio
    rw [hd]
    simp [hne, hctx, hdec]
  have hH : handleServerMessage decodeDur handler clock s m =
      ((interruptStep (handleAudio decodeDur clock s m).1 m).1,
        (handleAudio decodeDur clock s m).2.1 ++
          (interruptStep (handleAudio decodeDur clock s m).1 m).2 ++
          toolStep handler (interruptStep (handleAudio decodeDur clock s m).1 m).1 m,
        false) :=
    handleServerMessage_eq_of_ok decodeDur handler clock s m (by rw [hA])
  rw [hH, hA]
  simp [interruptStep, hintr, stopAllSources]

/-- C10 witness: the ordering statement instantiated at the busy state
and a message carrying audio, interruption and a tool call at once. -/
theorem message_sections_ordered_witness :
    fullMsg.audioData = some "one" ∧
    ("one" : String) ≠ "" ∧
    busyState.hasOutputCtx = true ∧
    sampleDecode "one" = some 1 ∧
    fullMsg.interrupted = true ∧
    ((handleServerMessage sampleDecode sampleHandler 0 busyState fullMsg).1.sources
        = [] ∧
      (handleServerMessage sampleDecode sampleHandler 0 busyState
          fullMsg).1.nextStartTime = 0 ∧
      Event.stopped busyState.nextSourceId ∈
        (handleServerMessage sampleDecode sampleHandler 0 busyState fullMsg).2.1 ∧
      (handleServerMessage sampleDecode sampleHandler 0 busyState fullMsg).2.1 =
        Event.volumeLevel (1/2) ::
          Event.scheduled busyState.nextSourceId
            (max 0 busyState.nextStartTime) 1 ::
          ((busyState.sources ++ [ busyState.nextSourceId ]).map Event.stopped ++
            toolStep sampleHandler
              (handleServerMessage sampleDecode sampleHandler 0 busyState
                fullMsg).1 fullMsg)) :=
  ⟨rfl, by decide, rfl, rfl, rfl,
    message_sections_ordered sampleDecode sampleHandler 0 busyState fullMsg
      "one" 1 rfl (by decide) rfl rfl rfl⟩

end NubelaTasks
